import Mathlib

/-!
Verification of the Shinkai-Shoujo IAM privilege-correlation pipeline.

This file shallowly embeds the pure cores of the Go sources:

* `internal/scraper/policy.go` — policy-document allow/deny parsing and
  action normalization (`parsePolicyStatements`, `isDenied`,
  `normalizeAction`);
* `internal/correlation` — wildcard-aware set difference
  (`setDifference`, `isPrivilegeUsed`), the SDK→IAM action map
  (`MapSDKToIAM`), the risk classifier (`ClassifyPrivilege`,
  `ClassifySet`) and the per-role correlation step (`correlateRole`);
* `internal/storage` — the privilege-usage upsert
  (`batchRecordPrivilegeUsage`) and analysis-result save
  (`saveAnalysisResult`) together with the schema declared by `migrate`,
  modelling SQLite's rule that an `ON CONFLICT (cols)` target must name a
  declared uniqueness constraint of the table;
* `internal/receiver` — span extraction (`parseTraces`) and the
  `/v1/traces` handler's status-code logic (`handleTraces`).

Go strings are Lean `String`s; `strings.ToLower` / `strings.EqualFold`
are modelled on ASCII via `Char.toLower` (all privilege strings in this
system are ASCII).  Go's `strings.SplitN(s, ":", 2)` is `splitFirst`.
Time values are Unix numbers (`Int`).  Database tables are row lists.
-/

/-- Lowercase of a string, character by character (ASCII model of Go
`strings.ToLower`). -/
def lowerStr (s : String) : String :=
  String.mk (s.data.map Char.toLower)

/-- ASCII model of Go `strings.EqualFold`: equality up to letter case. -/
def eqFold (s t : String) : Bool :=
  lowerStr s == lowerStr t

/-- Split a character list at the first `':'`: returns the part before and
the part after, or `none` when there is no `':'`. -/
def splitFirstAux : List Char → Option (List Char × List Char)
  | [] => none
  | c :: cs =>
    if c = ':' then some ([], cs)
    else
      match splitFirstAux cs with
      | some (l, r) => some (c :: l, r)
      | none => none

/-- Model of Go `strings.SplitN(s, ":", 2)`: `some (before, after)` split
at the first `':'`, or `none` when the string has no `':'`. -/
def splitFirst (s : String) : Option (String × String) :=
  match splitFirstAux s.data with
  | some (l, r) => some (String.mk l, String.mk r)
  | none => none

/-- Model of Go `strings.HasSuffix(s, "*")`. -/
def endsWithStar (s : String) : Bool :=
  match s.data.getLast? with
  | some c => c = '*'
  | none => false

/-- Model of Go `strings.HasPrefix(s, pre)` for each element of a list:
true when some listed string is a prefix of `s`. -/
def startsWithAny (s : String) (ps : List String) : Bool :=
  ps.any (fun p => p.data.isPrefixOf s.data)

/-- The `normalizeAction` of `internal/scraper/policy.go`: lowercase the
part before the first `':'` and keep the rest as written; a string with
no `':'` is lowercased whole. -/
def normalizeAction (action : String) : String :=
  match splitFirst action with
  | some (service, rest) => lowerStr service ++ ":" ++ rest
  | none => lowerStr action

/-- The `isDenied` of `internal/scraper/policy.go`: an (already
normalized) action is covered by the deny set when the set holds the
global wildcard `"*"`, the action itself, or the action's service
wildcard `service ++ ":*"`. -/
def isDenied (action : String) (denied : List String) : Bool :=
  if denied.contains "*" then true
  else if denied.contains action then true
  else
    match splitFirst action with
    | some (service, _) => denied.contains (service ++ ":*")
    | none => false

/-- One statement of a decoded IAM policy document (`policy.go`'s
`statement`; the `Resource` field is never read by the parser and is
omitted). -/
structure PolicyStmt where
  effect : String
  action : List String
deriving Repr, DecidableEq

/-- First pass of `parsePolicyDocument` (`policy.go:56-65`): collect every
action of every `Deny` statement, normalized.  Go stores them in a map;
only membership is ever consulted, so a list suffices. -/
def deniedSet (doc : List PolicyStmt) : List String :=
  doc.foldl
    (fun acc st =>
      if eqFold st.effect "Deny" then acc ++ st.action.map normalizeAction else acc)
    []

/-- One step of the second pass: given `(seen, out)` and a raw allowed
action, skip it when denied or already seen (case-insensitively),
otherwise record it. -/
def allowStep (denied : List String) (acc : List String × List String)
    (a : String) : List String × List String :=
  let norm := normalizeAction a
  if isDenied norm denied then acc
  else
    let key := lowerStr norm
    if acc.1.contains key then acc
    else (acc.1 ++ [key], acc.2 ++ [norm])

/-- The statement-processing core of `parsePolicyDocument`
(`policy.go:56-93`).  URL-decoding and JSON unmarshalling
(`policy.go:44-54`) are I/O and library calls and are elided: the input
here is the decoded statement list.  Deny actions are collected first;
then Allow actions are kept unless covered by the deny set, deduplicated
case-insensitively, in order of appearance. -/
def parsePolicyStatements (doc : List PolicyStmt) : List String :=
  let denied := deniedSet doc
  (doc.foldl
    (fun acc st =>
      if eqFold st.effect "Allow" then st.action.foldl (allowStep denied) acc else acc)
    ([], [])).2

/-- Risk classification levels (Go `correlation.RiskLevel`, a string type
with constants `"HIGH"`, `"MEDIUM"`, `"LOW"`). -/
inductive RiskLevel where
  | HIGH
  | MEDIUM
  | LOW
deriving Repr, DecidableEq

/-- Action name beginnings that indicate high-risk operations
(`highPrefixes` in the risk classifier source). -/
def highRiskStarts : List String := ["Delete", "Terminate"]

/-- Action name beginnings that indicate low-risk, read-only operations
(`lowPrefixes` in the risk classifier source). -/
def lowRiskStarts : List String := ["Describe", "List", "Get"]

/-- Action name beginnings that indicate medium-risk operations
(`mediumPrefixes` in the risk classifier source). -/
def mediumRiskStarts : List String := ["Create", "Put", "Modify", "Update", "Attach", "Detach"]

/-- The action part of a privilege: the text after the first `':'`, or the
whole string when there is no `':'` (the split at the top of
`ClassifyPrivilege` and `isPrivilegeUsed`). -/
def actionPart (p : String) : String :=
  match splitFirst p with
  | some (_, a) => a
  | none => p

/-- `ClassifyPrivilege` of the risk classifier: wildcard-ending actions
are MEDIUM; then the Delete/Terminate beginnings give HIGH, the
Describe/List/Get beginnings give LOW, the Create/Put/Modify/Update/
Attach/Detach beginnings give MEDIUM, and anything else defaults to
MEDIUM. -/
def ClassifyPrivilege (privilege : String) : RiskLevel :=
  let action := actionPart privilege
  if action = "*" || endsWithStar action then .MEDIUM
  else if startsWithAny action highRiskStarts then .HIGH
  else if startsWithAny action lowRiskStarts then .LOW
  else if startsWithAny action mediumRiskStarts then .MEDIUM
  else .MEDIUM

/-- The loop of `ClassifySet`, carrying the running `highest` level: HIGH
returns immediately, MEDIUM raises the running level, LOW leaves it. -/
def classifySetAux : List String → RiskLevel → RiskLevel
  | [], highest => highest
  | p :: ps, highest =>
    match ClassifyPrivilege p with
    | .HIGH => .HIGH
    | .MEDIUM => classifySetAux ps .MEDIUM
    | .LOW => classifySetAux ps highest

/-- `ClassifySet` of the risk classifier: the empty set is LOW, otherwise
the loop over the set starting from LOW. -/
def ClassifySet (privileges : List String) : RiskLevel :=
  if privileges = [] then .LOW
  else classifySetAux privileges .LOW

/-- The `sdkToIAMAction` table of the correlation package: SDK operation
names whose IAM action name differs (identity entries omitted). -/
def sdkToIAMAction : List (String × String) :=
  [("lambda:Invoke", "lambda:InvokeFunction"),
   ("lambda:InvokeAsync", "lambda:InvokeFunction"),
   ("lambda:InvokeWithQualifier", "lambda:InvokeFunction"),
   ("s3:HeadObject", "s3:GetObject"),
   ("s3:HeadBucket", "s3:ListBucket"),
   ("ec2:StartInstance", "ec2:StartInstances"),
   ("ec2:StopInstance", "ec2:StopInstances")]

/-- `MapSDKToIAM`: translate an observed privilege through the table,
returning the input unchanged on a lookup miss. -/
def MapSDKToIAM (privilege : String) : String :=
  match sdkToIAMAction.lookup privilege with
  | some mapped => mapped
  | none => privilege

/-- `isPrivilegeUsed` of the correlation engine: an assigned privilege is
covered by the observed set when it is directly a member; when it is the
global wildcard `"*"` and anything was observed; when it is a service
wildcard `svc:*` and some observation has the same service
(case-insensitively); or otherwise when some observation is `"*"` or a
same-service wildcard. -/
def isPrivilegeUsed (assigned : String) (used : List String) : Bool :=
  if used.contains assigned then true
  else
    let aService : String :=
      match splitFirst assigned with
      | some (s, _) => s
      | none => ""
    let aAction : String :=
      match splitFirst assigned with
      | some (_, a) => a
      | none => assigned
    if assigned = "*" then !used.isEmpty
    else if aAction = "*" then
      used.any (fun u =>
        match splitFirst u with
        | some (uService, _) => eqFold uService aService
        | none => false)
    else
      used.any (fun u =>
        u == "*" ||
          match splitFirst u with
          | some (uService, uAction) => eqFold uService aService && uAction == "*"
          | none => false)

/-- `setDifference` of the correlation engine: assigned minus used under
`isPrivilegeUsed`, keeping assigned order (the Go loop appends the
survivors in order; an empty assigned list short-circuits to nil). -/
def setDifference (assigned used : List String) : List String :=
  if assigned = [] then []
  else assigned.filter (fun a => !isPrivilegeUsed a used)

/-- The fields of a correlation `Result` that the pure correlation step
determines (`IAMRole` and `AnalyzedAt` are passed through from the
caller; times are elided). -/
structure CorrelationResult where
  assigned : List String
  used : List String
  unused : List String
  riskLevel : RiskLevel
deriving Repr, DecidableEq

/-- The pure core of `Engine.correlateRole`: the observed privileges are
read from storage (`usedRaw`), each is mapped through `MapSDKToIAM`, the
unused set is the wildcard-aware difference, and the risk is classified
over the unused set.  The built result (including its `used` list) is
what the engine persists and returns. -/
def correlateRole (assignedPrivs usedRaw : List String) : CorrelationResult :=
  let used := usedRaw.map MapSDKToIAM
  let unused := setDifference assignedPrivs used
  { assigned := assignedPrivs
    used := used
    unused := unused
    riskLevel := ClassifySet unused }

/-- Modelled from the spec: an observed privilege `u` is covered by an
authorized privilege `a` when they match exactly, when `a` is the global
wildcard, or when `a` is a service wildcard whose service equals `u`'s
service case-insensitively.  Used to state the claim that uncovered
observations are dropped from `used`. -/
def coversObservation (a u : String) : Bool :=
  a == u || a == "*" ||
    (match splitFirst a, splitFirst u with
     | some (aService, aAction), some (uService, _) =>
       aAction == "*" && eqFold aService uService
     | _, _ => false)

/-- A service wildcard: a privilege containing `':'` whose action part is
exactly `"*"` (for stating what survives `setDifference` against an
observed global wildcard). -/
def isServiceWildcard (a : String) : Bool :=
  match splitFirst a with
  | some (_, act) => act == "*"
  | none => false

/-- The uniqueness constraints a table's DDL declares, as column-name
lists (one entry per `UNIQUE(...)` clause; the rowid primary key is not a
conflict target). -/
structure TableSchema where
  tableName : String
  uniqueConstraints : List (List String)
deriving Repr, DecidableEq

/-- Schema of `privilege_usage` as created by `storage.migrate`: a
`UNIQUE(iam_role, privilege)` constraint plus non-unique secondary
indexes (which are not conflict targets). -/
def privilegeUsageSchema : TableSchema :=
  { tableName := "privilege_usage"
    uniqueConstraints := [["iam_role", "privilege"]] }

/-- Schema of `analysis_results` as created by `storage.migrate`: the DDL
declares no `UNIQUE` constraint at all — `idx_analysis_results_role` is a
plain (non-unique) index. -/
def analysisResultsSchema : TableSchema :=
  { tableName := "analysis_results"
    uniqueConstraints := [] }

/-- SQLite's upsert rule: an `INSERT ... ON CONFLICT (cols) DO UPDATE` is
accepted only when `cols` matches a declared uniqueness constraint of the
table; otherwise the statement is rejected with an error. -/
def conflictTargetValid (schema : TableSchema) (target : List String) : Bool :=
  schema.uniqueConstraints.contains target

/-- The error SQLite reports for an upsert whose conflict target matches
no uniqueness constraint. -/
def onConflictErr : String :=
  "ON CONFLICT clause does not match any PRIMARY KEY or UNIQUE constraint"

/-- A row of (and a record destined for) `privilege_usage`
(`storage.PrivilegeUsageRecord`; the timestamp is its Unix value, as
bound by `BatchRecordPrivilegeUsage`). -/
structure PrivilegeUsageRecord where
  timestamp : Int
  iamRole : String
  privilege : String
  callCount : Int
deriving Repr, DecidableEq

/-- The `DO UPDATE` arm of `BatchRecordPrivilegeUsage`'s upsert, applied
to one existing row: on the conflicting `(iam_role, privilege)` key the
timestamp advances to the maximum and the call count accumulates; other
rows are untouched. -/
def bumpRow (r row : PrivilegeUsageRecord) : PrivilegeUsageRecord :=
  if row.iamRole == r.iamRole && row.privilege == r.privilege then
    { row with timestamp := max row.timestamp r.timestamp,
               callCount := row.callCount + r.callCount }
  else row

/-- Effect of one upserting `INSERT` of `BatchRecordPrivilegeUsage` on the
`privilege_usage` table: on a `(iam_role, privilege)` conflict the
existing row is updated by `bumpRow`; otherwise the record becomes a new
row. -/
def upsertUsage (t : List PrivilegeUsageRecord) (r : PrivilegeUsageRecord) :
    List PrivilegeUsageRecord :=
  if t.any (fun row => row.iamRole == r.iamRole && row.privilege == r.privilege) then
    t.map (bumpRow r)
  else t ++ [r]

/-- `DB.BatchRecordPrivilegeUsage`: an empty batch returns at once;
otherwise every record is applied by the prepared upsert inside one
transaction (all applied, or the table left unchanged on error).  The
statement's `ON CONFLICT(iam_role, privilege)` target is checked against
the migrated schema. -/
def batchRecordPrivilegeUsage (t : List PrivilegeUsageRecord)
    (records : List PrivilegeUsageRecord) :
    Except String (List PrivilegeUsageRecord) :=
  if records = [] then .ok t
  else if conflictTargetValid privilegeUsageSchema ["iam_role", "privilege"] then
    .ok (records.foldl upsertUsage t)
  else .error onConflictErr

/-- The `(timestamp, call_count)` stored for a `(iam_role, privilege)`
pair, when present. -/
def lookupUsage (t : List PrivilegeUsageRecord) (role priv : String) :
    Option (Int × Int) :=
  (t.find? (fun row => row.iamRole == role && row.privilege == priv)).map
    (fun row => (row.timestamp, row.callCount))

/-- The table invariant `UNIQUE(iam_role, privilege)` maintains: no two
rows share the key. -/
def wellKeyed (t : List PrivilegeUsageRecord) : Prop :=
  t.Pairwise (fun a b => ¬(a.iamRole = b.iamRole ∧ a.privilege = b.privilege))

/-- An `analysis_results` row / `storage.AnalysisResult` (the date is its
Unix value, as bound by `SaveAnalysisResult`). -/
structure AnalysisResult where
  analysisDate : Int
  iamRole : String
  assignedPrivs : List String
  usedPrivs : List String
  unusedPrivs : List String
  riskLevel : String
deriving Repr, DecidableEq

/-- `DB.SaveAnalysisResult`: a single `INSERT ... ON CONFLICT(iam_role)
DO UPDATE` into `analysis_results` (the JSON marshalling of the list
columns never fails for string lists and is elided).  SQLite accepts the
statement only if `iam_role` names a uniqueness constraint of the table —
which the migrated schema does not declare. -/
def saveAnalysisResult (t : List AnalysisResult) (r : AnalysisResult) :
    Except String (List AnalysisResult) :=
  if conflictTargetValid analysisResultsSchema ["iam_role"] then
    .ok (if t.any (fun row => row.iamRole == r.iamRole) then
           t.map (fun row => if row.iamRole == r.iamRole then r else row)
         else t ++ [r])
  else .error onConflictErr

/-- An OTLP attribute, reduced to what `attrValue` reads: the key and the
attribute's string value (`GetValue().GetStringValue()` yields `""` for a
non-string value, which `attrValue` treats as absent). -/
structure KeyValue where
  key : String
  value : String
deriving Repr, DecidableEq

/-- An OTLP span, reduced to what `parseTraces` reads: its attributes and
its start time in nanoseconds (`0` meaning unset). -/
structure Span where
  attributes : List KeyValue
  startTimeUnixNano : Nat
deriving Repr, DecidableEq

/-- An OTLP `ScopeSpans`: a list of spans (the scope itself is unread). -/
structure ScopeSpans where
  spans : List Span
deriving Repr, DecidableEq

/-- An OTLP `ResourceSpans`: the resource's attributes and the scope-span
groups under it. -/
structure ResourceSpans where
  resourceAttributes : List KeyValue
  scopeSpans : List ScopeSpans
deriving Repr, DecidableEq

/-- `receiver.attrValue`: the first attribute with the given key whose
string value is non-empty; `""` when none is found (a matching key with
an empty value does not stop the scan). -/
def attrValue : List KeyValue → String → String
  | [], _ => ""
  | kv :: rest, key =>
    if kv.key = key then
      if kv.value ≠ "" then kv.value else attrValue rest key
    else attrValue rest key

/-- `receiver.spanTimestamp`: the span's start time, falling back to the
receiver's current time when the span's timestamp is zero. -/
def spanTimestamp (sp : Span) (now : Int) : Int :=
  if sp.startTimeUnixNano ≠ 0 then (sp.startTimeUnixNano : Int) else now

/-- `receiver.normalizePrivilege`: `lowercase(service) + ":" + operation`,
operation case preserved. -/
def normalizePrivilege (service operation : String) : String :=
  lowerStr service ++ ":" ++ operation

/-- The per-span body of `parseTraces`' inner loop: a span missing
`aws.service` or `aws.operation` is skipped; otherwise it yields one
record with call count 1 and the span's (or the receiver's) timestamp. -/
def parseSpan (iamRole : String) (now : Int) (sp : Span) :
    Option PrivilegeUsageRecord :=
  let service := attrValue sp.attributes "aws.service"
  let operation := attrValue sp.attributes "aws.operation"
  if service = "" || operation = "" then none
  else some
    { timestamp := spanTimestamp sp now
      iamRole := iamRole
      privilege := normalizePrivilege service operation
      callCount := 1 }

/-- `receiver.parseTraces`: for each `ResourceSpans`, read `aws.iam.role`
from the resource attributes (skipping the whole group when absent), then
collect one record per accepted span, in order.  Metric counters and
debug logging are elided. -/
def parseTraces (resourceSpans : List ResourceSpans) (now : Int) :
    List PrivilegeUsageRecord :=
  (resourceSpans.map (fun rs =>
    let iamRole := attrValue rs.resourceAttributes "aws.iam.role"
    if iamRole = "" then []
    else (rs.scopeSpans.map (fun ss => ss.spans.filterMap (parseSpan iamRole now))).flatten)).flatten

/-- A span the receiver accepts: it carries both `aws.service` and
`aws.operation` (with non-empty string values). -/
def acceptedSpan (sp : Span) : Bool :=
  !(attrValue sp.attributes "aws.service" == "" ||
    attrValue sp.attributes "aws.operation" == "")

/-- Number of accepted spans of a request, as the claim counts them: spans
under a resource carrying `aws.iam.role`, themselves accepted. -/
def acceptedSpanCount (resourceSpans : List ResourceSpans) : Nat :=
  (resourceSpans.map (fun rs =>
    if attrValue rs.resourceAttributes "aws.iam.role" = "" then 0
    else (rs.scopeSpans.map (fun ss => ss.spans.countP acceptedSpan)).sum)).sum

/-- Content types dispatched to the JSON decoder by `handleTraces`
(`server.go:100-115`); everything else goes to the protobuf decoder. -/
def isJsonContentType (ct : String) : Bool :=
  ct == "application/json" || ct == "application/x-protobuf-json"

/-- What a run of the traces handler produced: the HTTP status written and
the batches handed to `BatchRecordPrivilegeUsage` (each call one batch). -/
structure HandlerOutcome where
  status : Nat
  dbCalls : List (List PrivilegeUsageRecord)
deriving Repr, DecidableEq

/-- `Server.handleTraces` (`server.go:80-131`), with its environment made
explicit: `decodeJson`/`decodeProto` stand for `protojson.Unmarshal` /
`proto.Unmarshal` (returning the request's `ResourceSpans` or a failure),
`readFailed` for `io.ReadAll` failing under `MaxBytesReader` (the oversize
case), and `dbOk` for the batched storage write succeeding.  Non-POST
methods get 405; a read failure 413; a decode failure under the
dispatched decoder 400; zero extracted records 200 with no storage call;
otherwise one storage call with all records, answering 200 on success and
500 on failure. -/
def handleTraces (decodeJson decodeProto : String → Option (List ResourceSpans))
    (dbOk : Bool) (method contentType : String) (readFailed : Bool)
    (body : String) (now : Int) : HandlerOutcome :=
  if method ≠ "POST" then { status := 405, dbCalls := [] }
  else if readFailed then { status := 413, dbCalls := [] }
  else
    match (if isJsonContentType contentType then decodeJson body else decodeProto body) with
    | none => { status := 400, dbCalls := [] }
    | some resourceSpans =>
      let records := parseTraces resourceSpans now
      if records = [] then { status := 200, dbCalls := [] }
      else if dbOk then { status := 200, dbCalls := [records] }
      else { status := 500, dbCalls := [records] }

/-- Stated from the claim's wording, for comparison with
`ClassifyPrivilege`: an action part ending in `"*"` is MEDIUM; otherwise
Delete/Terminate beginnings are HIGH, Describe/List/Get beginnings are
LOW, Create/Put/Modify/Update/Attach/Detach beginnings are MEDIUM, and
any other action is MEDIUM. -/
def claimClassify (p : String) : RiskLevel :=
  let action := actionPart p
  if endsWithStar action then .MEDIUM
  else if startsWithAny action highRiskStarts then .HIGH
  else if startsWithAny action lowRiskStarts then .LOW
  else if startsWithAny action mediumRiskStarts then .MEDIUM
  else .MEDIUM

/-- Stated from the claim's wording, for comparison with `ClassifySet`:
HIGH if any element classifies HIGH, else MEDIUM if any element
classifies MEDIUM, else LOW (so the empty set is LOW). -/
def claimClassifySet (l : List String) : RiskLevel :=
  if l.any (fun p => claimClassify p == .HIGH) then .HIGH
  else if l.any (fun p => claimClassify p == .MEDIUM) then .MEDIUM
  else .LOW

/-! Supporting lemmas. -/

theorem splitFirstAux_eq_none {l : List Char} :
    splitFirstAux l = none ↔ ':' ∉ l := by
  induction l with
  | nil => simp [splitFirstAux]
  | cons c cs ih =>
    by_cases hc : c = ':'
    · simp [splitFirstAux, hc]
    · cases h : splitFirstAux cs with
      | none => simp [splitFirstAux, hc, h, ih.mp h, Ne.symm hc]
      | some p =>
        obtain ⟨x, y⟩ := p
        have : ':' ∈ cs := by
          by_contra hmem
          exact absurd (ih.mpr hmem) (by simp [h])
        simp [splitFirstAux, hc, h, this]

theorem splitFirstAux_eq_some {l x y : List Char}
    (h : splitFirstAux l = some (x, y)) : l = x ++ ':' :: y := by
  induction l generalizing x y with
  | nil => simp [splitFirstAux] at h
  | cons c cs ih =>
    by_cases hc : c = ':'
    · simp [splitFirstAux, hc] at h
      simp [hc, h.1, h.2]
    · simp only [splitFirstAux, if_neg hc] at h
      cases hrec : splitFirstAux cs with
      | none => simp [hrec] at h
      | some p =>
        obtain ⟨l', r'⟩ := p
        rw [hrec] at h
        simp only [Option.some.injEq, Prod.mk.injEq] at h
        obtain ⟨hx, hy⟩ := h
        subst hx hy
        simp [ih hrec]

theorem splitFirst_eq_some {s x y : String}
    (h : splitFirst s = some (x, y)) : s.data = x.data ++ ':' :: y.data := by
  unfold splitFirst at h
  cases haux : splitFirstAux s.data with
  | none => simp [haux] at h
  | some p =>
    obtain ⟨l, r⟩ := p
    rw [haux] at h
    simp only [Option.some.injEq, Prod.mk.injEq] at h
    obtain ⟨hx, hy⟩ := h
    have := splitFirstAux_eq_some haux
    rw [this, ← hx, ← hy]

theorem colon_mem_of_splitFirst_some {s x y : String}
    (h : splitFirst s = some (x, y)) : ':' ∈ s.data := by
  rw [splitFirst_eq_some h]
  simp

theorem splitFirst_star : splitFirst "*" = none := by decide

theorem ne_star_of_splitFirst_some {s x y : String}
    (h : splitFirst s = some (x, y)) : s ≠ "*" := by
  intro hs
  rw [hs, splitFirst_star] at h
  exact absurd h (by simp)

theorem serviceWildcard_append {s x : String}
    (h : splitFirst s = some (x, "*")) : x ++ ":*" = s := by
  apply String.ext
  rw [String.data_append, splitFirst_eq_some h]

/-- Claim C9 — the policy parser's `normalizeAction` lowercases a
colon-less action string in full (not only the bare wildcard), while a
string containing `':'` keeps everything after the first `':'` unchanged
and lowercases only the part before it. -/
theorem normalizeAction_lowercasing (s : String) :
    (splitFirst s = none ↔ ':' ∉ s.data) ∧
    (splitFirst s = none → normalizeAction s = lowerStr s) ∧
    (∀ x y, splitFirst s = some (x, y) →
      normalizeAction s = lowerStr x ++ ":" ++ y) := by
  refine ⟨?_, ?_, ?_⟩
  · unfold splitFirst
    cases haux : splitFirstAux s.data with
    | none => simpa [haux] using splitFirstAux_eq_none.mp haux
    | some p =>
      obtain ⟨l, r⟩ := p
      have : ':' ∈ s.data := by
        rw [splitFirstAux_eq_some haux]; simp
      simp [haux, this]
  · intro h
    unfold normalizeAction
    rw [h]
  · intro x y h
    unfold normalizeAction
    rw [h]

theorem normalizeAction_lowercasing_witness :
    normalizeAction "ReadOnly" = "readonly" := by
  have h := (normalizeAction_lowercasing "ReadOnly").2.1 (by decide)
  rw [h]
  decide

/-- Claim C5 — the deny pass never splits an allowed wildcard: an allowed
service wildcard (an action splitting as `svc` and `"*"`) is removed
exactly when the deny set holds the global wildcard `"*"` or the wildcard
itself (the exact and service-wildcard deny cases coincide on a
wildcard); a deny of any specific action leaves it intact.  In
particular, Allow `{s3:*, ec2:DescribeInstances}` with Deny
`ec2:DescribeInstances` parses to exactly `{s3:*}`. -/
theorem denyNeverSplitsAllowedWildcard (a svc : String) (d : List String)
    (h : splitFirst a = some (svc, "*")) :
    isDenied a d = (d.contains "*" || d.contains a) ∧
    parsePolicyStatements
      [⟨"Allow", ["s3:*", "ec2:DescribeInstances"]⟩,
       ⟨"Deny", ["ec2:DescribeInstances"]⟩] = ["s3:*"] := by
  constructor
  · by_cases h1 : d.contains "*" <;> by_cases h2 : d.contains a <;>
      simp [isDenied, h, serviceWildcard_append h, h1, h2]
  · decide

theorem denyNeverSplitsAllowedWildcard_witness :
    isDenied "s3:*" ["s3:DeleteObject"] =
      ((["s3:DeleteObject"] : List String).contains "*" ||
       (["s3:DeleteObject"] : List String).contains "s3:*") ∧
    parsePolicyStatements
      [⟨"Allow", ["s3:*", "ec2:DescribeInstances"]⟩,
       ⟨"Deny", ["ec2:DescribeInstances"]⟩] = ["s3:*"] :=
  denyNeverSplitsAllowedWildcard "s3:*" "s3" ["s3:DeleteObject"] (by decide)

theorem isPrivilegeUsed_star_obs (a : String) :
    isPrivilegeUsed a ["*"] = !isServiceWildcard a := by
  by_cases ha : a = "*"
  · subst ha; decide
  · have hc : (["*"] : List String).contains a = false := by
      simp [List.contains_cons, beq_iff_eq, ha]
    cases hsp : splitFirst a with
    | none =>
      simp [isPrivilegeUsed, isServiceWildcard, hsp, ha, hc]
    | some p =>
      obtain ⟨svc, act⟩ := p
      by_cases hact : act = "*"
      · subst hact
        simp [isPrivilegeUsed, isServiceWildcard, hsp, ha, hc, splitFirst_star]
      · simp [isPrivilegeUsed, isServiceWildcard, hsp, ha, hc, hact]

/-- Claim C3 (counterexample) — with the global wildcard `"*"` observed,
the authorized service wildcard `s3:*` is NOT considered used:
`setDifference ["s3:*"] ["*"]` is not empty (the claim asserts it is
empty for every authorized set). -/
theorem setDifference_globalObs_cex :
    setDifference ["s3:*"] ["*"] = ["s3:*"] ∧
    decide (setDifference ["s3:*"] ["*"] = []) = false := by decide

/-- Claim C3 (amended) — against an observed set holding only the global
wildcard `"*"`, the unused set is exactly the authorized service
wildcards: every non-wildcard (and the global-wildcard) authorization is
considered used, while an authorized `svc:*` survives because the
service-wildcard branch looks only for same-service observations and
`"*"` carries no service. -/
theorem setDifference_globalObs (A : List String) :
    setDifference A ["*"] = A.filter (fun a => isServiceWildcard a) := by
  cases A with
  | nil => rfl
  | cons x xs =>
    unfold setDifference
    rw [if_neg (by simp)]
    exact List.filter_congr (fun a _ => by rw [isPrivilegeUsed_star_obs]; simp)

/-- Claim C4 — in the wildcard-aware difference, an authorized global
wildcard `"*"` counts as used exactly when something was observed, and an
authorized service wildcard (splitting as `svc` and `"*"`) counts as used
exactly when some observed privilege splits with a service equal to `svc`
up to case (`eqFold`); the action side of the observation is never
compared (only exact `"*"` action parts and case-folded services decide
these branches). -/
theorem wildcardMatching (a svc : String) (used : List String) :
    (isPrivilegeUsed "*" used = !used.isEmpty) ∧
    (splitFirst a = some (svc, "*") →
      isPrivilegeUsed a used =
        used.any (fun u =>
          match splitFirst u with
          | some (uService, _) => eqFold uService svc
          | none => false)) := by
  constructor
  · by_cases hc : used.contains "*"
    · have hne : used ≠ [] := by
        intro hnil
        rw [hnil] at hc
        simp at hc
      simp [isPrivilegeUsed, hc, List.isEmpty_iff, hne]
    · simp only [isPrivilegeUsed, splitFirst_star]
      simp [hc, splitFirst_star]
      intro hm hnil
      rw [hnil] at hm
      simp at hm
  · intro h
    have hne : a ≠ "*" := ne_star_of_splitFirst_some h
    by_cases hc : used.contains a
    · have hmem : a ∈ used := List.mem_of_elem_eq_true hc
      have hstep : isPrivilegeUsed a used = true := by
        unfold isPrivilegeUsed
        rw [hc]
        simp
      rw [hstep]
      symm
      exact List.any_eq_true.mpr ⟨a, hmem, by rw [h]; simp [eqFold]⟩
    · simp [isPrivilegeUsed, hc, h, hne]
      intro hm
      exact absurd (List.elem_eq_true_of_mem hm) hc

theorem wildcardMatching_witness :
    isPrivilegeUsed "*" ["S3:GetObject"] = true ∧
    isPrivilegeUsed "s3:*" ["S3:GetObject"] = true := by
  have h := wildcardMatching "s3:*" "s3" ["S3:GetObject"]
  refine ⟨?_, ?_⟩
  · rw [h.1]; rfl
  · rw [h.2 (by decide)]; decide

/-- Claim C1 (counterexample) — `correlateRole` does not drop uncovered
observations: with authorization set `{s3:GetObject}` and observed set
`{ec2:DescribeInstances}`, the built (and persisted) `used` list contains
`ec2:DescribeInstances` although no authorized privilege covers it. -/
theorem correlateRole_uncovered_cex :
    (correlateRole ["s3:GetObject"] ["ec2:DescribeInstances"]).used =
      ["ec2:DescribeInstances"] ∧
    decide (∀ u ∈ (correlateRole ["s3:GetObject"] ["ec2:DescribeInstances"]).used,
        ∃ a ∈ ["s3:GetObject"], coversObservation a u = true) = false := by decide

/-- Claim C1 (amended) — the `used` list `correlateRole` builds, persists
and returns is exactly the observed privileges each mapped through
`MapSDKToIAM`, with no coverage filtering against the authorization set:
observed privileges covered by no authorized privilege stay in `used`. -/
theorem correlateRole_used_unfiltered (assigned usedRaw : List String) :
    (correlateRole assigned usedRaw).used = usedRaw.map MapSDKToIAM := rfl

/-- Claim C2 — `SaveAnalysisResult` can never succeed against the schema
`migrate` creates: its `INSERT ... ON CONFLICT(iam_role) DO UPDATE`
names a conflict target that matches no uniqueness constraint of
`analysis_results` (the migration declares only a plain index on
`iam_role`), so SQLite rejects the statement for every input and no
round-trip through `GetLatestAnalysisResults` is possible. -/
theorem saveAnalysisResult_always_fails (t : List AnalysisResult)
    (r : AnalysisResult) :
    saveAnalysisResult t r = .error onConflictErr := rfl

theorem classify_eq_claim (p : String) :
    ClassifyPrivilege p = claimClassify p := by
  by_cases hw : endsWithStar (actionPart p)
  · simp [ClassifyPrivilege, claimClassify, hw]
  · have hns : actionPart p ≠ "*" := by
      intro he
      rw [he] at hw
      exact hw (by decide)
    simp [ClassifyPrivilege, claimClassify, hw, hns]

theorem classifySetAux_eq (l : List String) (highest : RiskLevel) :
    classifySetAux l highest =
      if l.any (fun p => ClassifyPrivilege p == .HIGH) then .HIGH
      else if l.any (fun p => ClassifyPrivilege p == .MEDIUM) then .MEDIUM
      else highest := by
  induction l generalizing highest with
  | nil => simp [classifySetAux]
  | cons p ps ih =>
    cases hcp : ClassifyPrivilege p with
    | HIGH => simp [classifySetAux, hcp]
    | MEDIUM =>
      simp only [classifySetAux, hcp, ih, List.any_cons]
      cases hH : ps.any (fun q => ClassifyPrivilege q == RiskLevel.HIGH) <;>
        simp [hcp, hH]
    | LOW =>
      simp only [classifySetAux, hcp, ih, List.any_cons]
      simp [hcp]

/-- Claim C7 — the risk classifier agrees with the claim's rule order for
every privilege (wildcard ending MEDIUM first, then Delete/Terminate
HIGH, Describe/List/Get LOW, the medium beginnings and the default
MEDIUM), and the set classification is HIGH when any element is HIGH,
else MEDIUM when any element is MEDIUM, else LOW, with the empty set
LOW. -/
theorem riskClassifierClaim (p : String) (l : List String) :
    ClassifyPrivilege p = claimClassify p ∧
    ClassifySet l = claimClassifySet l := by
  refine ⟨classify_eq_claim p, ?_⟩
  unfold ClassifySet claimClassifySet
  by_cases hl : l = []
  · simp [hl]
  · rw [if_neg hl, classifySetAux_eq]
    simp only [classify_eq_claim]

theorem bumpRow_role (r row : PrivilegeUsageRecord) :
    (bumpRow r row).iamRole = row.iamRole := by
  unfold bumpRow
  split <;> rfl

theorem bumpRow_priv (r row : PrivilegeUsageRecord) :
    (bumpRow r row).privilege = row.privilege := by
  unfold bumpRow
  split <;> rfl

theorem lookup_map_bump (t : List PrivilegeUsageRecord)
    (r : PrivilegeUsageRecord) :
    lookupUsage (t.map (bumpRow r)) r.iamRole r.privilege =
      (lookupUsage t r.iamRole r.privilege).map
        (fun p => (max p.1 r.timestamp, p.2 + r.callCount)) := by
  induction t with
  | nil => rfl
  | cons row rest ih =>
    by_cases hk : (row.iamRole == r.iamRole && row.privilege == r.privilege) = true
    · have hk' : ((bumpRow r row).iamRole == r.iamRole &&
          (bumpRow r row).privilege == r.privilege) = true := by
        rwa [bumpRow_role, bumpRow_priv]
      unfold lookupUsage
      rw [List.map_cons]
      simp only [List.find?, hk, hk']
      simp [bumpRow, hk]
    · have hk2 : (row.iamRole == r.iamRole && row.privilege == r.privilege) = false := by
        simpa using hk
      have hk2' : ((bumpRow r row).iamRole == r.iamRole &&
          (bumpRow r row).privilege == r.privilege) = false := by
        rwa [bumpRow_role, bumpRow_priv]
      unfold lookupUsage at ih ⊢
      rw [List.map_cons]
      simp only [List.find?, hk2, hk2']
      exact ih

theorem lookup_upsert (t : List PrivilegeUsageRecord)
    (r : PrivilegeUsageRecord) :
    lookupUsage (upsertUsage t r) r.iamRole r.privilege =
      some (match lookupUsage t r.iamRole r.privilege with
            | none => (r.timestamp, r.callCount)
            | some (ts, c) => (max ts r.timestamp, c + r.callCount)) := by
  unfold upsertUsage
  by_cases ha : t.any
      (fun row => row.iamRole == r.iamRole && row.privilege == r.privilege) = true
  · rw [if_pos ha, lookup_map_bump]
    cases hf : lookupUsage t r.iamRole r.privilege with
    | none =>
      exfalso
      unfold lookupUsage at hf
      cases hfind : List.find?
          (fun row => row.iamRole == r.iamRole && row.privilege == r.privilege) t with
      | some x =>
        rw [hfind] at hf
        simp at hf
      | none =>
        rw [List.find?_eq_none] at hfind
        obtain ⟨x, hx, hpx⟩ := List.any_eq_true.mp ha
        exact hfind x hx hpx
    | some p =>
      obtain ⟨ts, c⟩ := p
      rfl
  · rw [if_neg ha]
    have hfind : t.find?
        (fun row => row.iamRole == r.iamRole && row.privilege == r.privilege) = none := by
      rw [List.find?_eq_none]
      intro x hx hpx
      exact ha (List.any_eq_true.mpr ⟨x, hx, hpx⟩)
    have hnone : lookupUsage t r.iamRole r.privilege = none := by
      unfold lookupUsage
      rw [hfind]
      rfl
    rw [hnone]
    unfold lookupUsage
    rw [List.find?_append, hfind]
    simp [List.find?]

theorem wellKeyed_upsert (t : List PrivilegeUsageRecord)
    (r : PrivilegeUsageRecord) (h : wellKeyed t) :
    wellKeyed (upsertUsage t r) := by
  unfold upsertUsage
  by_cases ha : t.any
      (fun row => row.iamRole == r.iamRole && row.privilege == r.privilege) = true
  · rw [if_pos ha]
    unfold wellKeyed at h ⊢
    refine List.Pairwise.map _ ?_ h
    intro a b hab
    simpa [bumpRow_role, bumpRow_priv] using hab
  · rw [if_neg ha]
    unfold wellKeyed at h ⊢
    rw [List.pairwise_append]
    refine ⟨h, List.pairwise_singleton _ _, ?_⟩
    intro a hat b hb
    simp only [List.mem_singleton] at hb
    subst hb
    intro hcon
    apply ha
    exact List.any_eq_true.mpr ⟨a, hat, by simp [hcon.1, hcon.2]⟩

/-- Claim C6 — `BatchRecordPrivilegeUsage` applies its whole batch as a
unit (in the model the fold either runs over every record or the table is
returned unchanged with an error), upserting each record on the
`(iam_role, privilege)` key — valid against the migrated schema's
`UNIQUE(iam_role, privilege)` — with the timestamp advanced to the
maximum and the call counts summed; hence the same record applied twice
leaves a single row for the pair, with the counts summed twice and the
timestamp at the later value, and key-uniqueness of the table is
preserved. -/
theorem batchUpsertTwice (t : List PrivilegeUsageRecord)
    (r : PrivilegeUsageRecord) (h : wellKeyed t) :
    ∃ t', batchRecordPrivilegeUsage t [r, r] = .ok t' ∧ wellKeyed t' ∧
      lookupUsage t' r.iamRole r.privilege =
        some (match lookupUsage t r.iamRole r.privilege with
              | none => (r.timestamp, r.callCount + r.callCount)
              | some (ts, c) => (max (max ts r.timestamp) r.timestamp,
                                 c + r.callCount + r.callCount)) := by
  refine ⟨upsertUsage (upsertUsage t r) r, ?_, ?_, ?_⟩
  · unfold batchRecordPrivilegeUsage
    rw [if_neg (by simp), if_pos (by decide)]
    rfl
  · exact wellKeyed_upsert _ _ (wellKeyed_upsert _ _ h)
  · rw [lookup_upsert, lookup_upsert]
    cases hl : lookupUsage t r.iamRole r.privilege with
    | none => simp
    | some p =>
      obtain ⟨ts, c⟩ := p
      rfl

theorem batchUpsertTwice_witness :
    ∃ t', batchRecordPrivilegeUsage []
        [⟨5, "role/A", "s3:GetObject", 1⟩, ⟨5, "role/A", "s3:GetObject", 1⟩] =
          .ok t' ∧
      wellKeyed t' ∧
      lookupUsage t' "role/A" "s3:GetObject" = some (5, 2) := by
  obtain ⟨t', h1, h2, h3⟩ :=
    batchUpsertTwice [] ⟨5, "role/A", "s3:GetObject", 1⟩ List.Pairwise.nil
  refine ⟨t', h1, h2, ?_⟩
  rw [h3]
  decide

/-- Claim C8 — the traces handler's contract: a failed body read (the
oversize case) answers 413; a decode failure under the dispatched decoder
answers 400; a successful decode with zero extracted records answers 200
without touching storage; with records present the single batched storage
call decides between 200 and 500; and every storage call the handler ever
makes is one batch holding exactly the request's extracted records. -/
theorem handleTracesStatusCodes
    (dj dp : String → Option (List ResourceSpans)) (dbOk : Bool)
    (ct body : String) (now : Int) :
    (handleTraces dj dp dbOk "POST" ct true body now =
      { status := 413, dbCalls := [] }) ∧
    ((if isJsonContentType ct then dj body else dp body) = none →
      handleTraces dj dp dbOk "POST" ct false body now =
        { status := 400, dbCalls := [] }) ∧
    (∀ rss, (if isJsonContentType ct then dj body else dp body) = some rss →
      parseTraces rss now = [] →
      handleTraces dj dp dbOk "POST" ct false body now =
        { status := 200, dbCalls := [] }) ∧
    (∀ rss, (if isJsonContentType ct then dj body else dp body) = some rss →
      parseTraces rss now ≠ [] →
      handleTraces dj dp dbOk "POST" ct false body now =
        if dbOk then { status := 200, dbCalls := [parseTraces rss now] }
        else { status := 500, dbCalls := [parseTraces rss now] }) ∧
    (∀ ov, (handleTraces dj dp dbOk "POST" ct ov body now).dbCalls.length ≤ 1 ∧
      ∀ batch ∈ (handleTraces dj dp dbOk "POST" ct ov body now).dbCalls,
        ∃ rss, (if isJsonContentType ct then dj body else dp body) = some rss ∧
          batch = parseTraces rss now) := by
  refine ⟨?_, ?_, ?_, ?_, ?_⟩
  · simp [handleTraces]
  · intro h
    simp [handleTraces, h]
  · intro rss h hemp
    simp [handleTraces, h, hemp]
  · intro rss h hne
    by_cases hdb : dbOk <;> simp [handleTraces, h, hne, hdb]
  · intro ov
    cases ov with
    | true => simp [handleTraces]
    | false =>
      cases hdec : (if isJsonContentType ct then dj body else dp body) with
      | none => simp [handleTraces, hdec]
      | some rss =>
        by_cases hemp : parseTraces rss now = []
        · simp [handleTraces, hdec, hemp]
        · by_cases hdb : dbOk <;>
            simp [handleTraces, hdec, hemp, hdb]

theorem handleTracesStatusCodes_witness :
    handleTraces (fun _ => none) (fun _ => none) true
        "POST" "application/json" false "" 0 =
      { status := 400, dbCalls := [] } :=
  (handleTracesStatusCodes (fun _ => none) (fun _ => none) true
    "application/json" "" 0).2.1 (by simp [isJsonContentType])

theorem parseSpan_isSome (role : String) (now : Int) (sp : Span) :
    (parseSpan role now sp).isSome = acceptedSpan sp := by
  unfold parseSpan acceptedSpan
  by_cases h1 : attrValue sp.attributes "aws.service" = "" <;>
    by_cases h2 : attrValue sp.attributes "aws.operation" = "" <;>
      simp [h1, h2]

theorem filterMap_parseSpan_length (role : String) (now : Int) (l : List Span) :
    (l.filterMap (parseSpan role now)).length = l.countP acceptedSpan := by
  induction l with
  | nil => rfl
  | cons sp rest ih =>
    rw [List.filterMap_cons, List.countP_cons]
    cases hp : parseSpan role now sp with
    | none =>
      have hacc : acceptedSpan sp = false := by
        rw [← parseSpan_isSome role now sp, hp]
        rfl
      simp [hacc, ih]
    | some rec =>
      have hacc : acceptedSpan sp = true := by
        rw [← parseSpan_isSome role now sp, hp]
        rfl
      simp [hacc, ih]

theorem scopeSpans_length (role : String) (now : Int) (sss : List ScopeSpans) :
    ((sss.map (fun ss => ss.spans.filterMap (parseSpan role now))).flatten).length =
      (sss.map (fun ss => ss.spans.countP acceptedSpan)).sum := by
  induction sss with
  | nil => rfl
  | cons ss rest ih =>
    rw [List.map_cons, List.flatten_cons, List.length_append, ih,
        List.map_cons, List.sum_cons, filterMap_parseSpan_length]

theorem parseTraces_length (rss : List ResourceSpans) (now : Int) :
    (parseTraces rss now).length = acceptedSpanCount rss := by
  induction rss with
  | nil => rfl
  | cons rs rest ih =>
    simp only [parseTraces, acceptedSpanCount, List.map_cons, List.flatten_cons,
      List.length_append, List.sum_cons] at ih ⊢
    rw [ih]
    by_cases hrole : attrValue rs.resourceAttributes "aws.iam.role" = ""
    · simp [hrole]
    · simp only [if_neg hrole]
      rw [scopeSpans_length]

theorem parseTraces_callCount (rss : List ResourceSpans) (now : Int) :
    ∀ r ∈ parseTraces rss now, r.callCount = 1 := by
  intro r hr
  simp only [parseTraces, List.mem_flatten, List.mem_map] at hr
  obtain ⟨l, ⟨rs, hrs, rfl⟩, hrl⟩ := hr
  by_cases hrole : attrValue rs.resourceAttributes "aws.iam.role" = ""
  · rw [if_pos hrole] at hrl
    simp at hrl
  · rw [if_neg hrole] at hrl
    simp only [List.mem_flatten, List.mem_map] at hrl
    obtain ⟨l2, ⟨ss, hss, rfl⟩, hrl2⟩ := hrl
    rw [List.mem_filterMap] at hrl2
    obtain ⟨sp, hsp, hps⟩ := hrl2
    simp only [parseSpan] at hps
    by_cases h1 : attrValue sp.attributes "aws.service" = ""
    · simp [h1] at hps
    · by_cases h2 : attrValue sp.attributes "aws.operation" = ""
      · simp [h1, h2] at hps
      · rw [if_neg (by simp [h1, h2])] at hps
        simp only [Option.some.injEq] at hps
        rw [← hps]

theorem sum_unit_callCounts (l : List PrivilegeUsageRecord)
    (h : ∀ r ∈ l, r.callCount = 1) :
    (l.map (fun r => r.callCount)).sum = (l.length : Int) := by
  induction l with
  | nil => rfl
  | cons r rest ih =>
    simp only [List.map_cons, List.sum_cons, List.length_cons]
    rw [h r (by simp), ih (fun x hx => h x (by simp [hx]))]
    push_cast
    ring

/-- Claim C10 — every record the receiver's trace parser emits carries
call count exactly 1, the number of emitted records equals the number of
accepted spans, and therefore the request's total call-count contribution
(as summed by the upsert of C6) equals its number of accepted spans. -/
theorem parseTracesUnitContribution (rss : List ResourceSpans) (now : Int) :
    (∀ r ∈ parseTraces rss now, r.callCount = 1) ∧
    (parseTraces rss now).length = acceptedSpanCount rss ∧
    ((parseTraces rss now).map (fun r => r.callCount)).sum =
      (acceptedSpanCount rss : Int) := by
  refine ⟨parseTraces_callCount rss now, parseTraces_length rss now, ?_⟩
  rw [sum_unit_callCounts _ (parseTraces_callCount rss now),
      parseTraces_length rss now]

theorem parseTracesUnitContribution_witness :
    (parseTraces
        [⟨[⟨"aws.iam.role", "roleA"⟩],
          [⟨[⟨[⟨"aws.service", "S3"⟩, ⟨"aws.operation", "GetObject"⟩], 42⟩]⟩]⟩] 9).length =
      acceptedSpanCount
        [⟨[⟨"aws.iam.role", "roleA"⟩],
          [⟨[⟨[⟨"aws.service", "S3"⟩, ⟨"aws.operation", "GetObject"⟩], 42⟩]⟩]⟩] ∧
    PrivilegeUsageRecord.callCount ⟨42, "roleA", "s3:GetObject", 1⟩ = 1 := by
  have h := parseTracesUnitContribution
    [⟨[⟨"aws.iam.role", "roleA"⟩],
      [⟨[⟨[⟨"aws.service", "S3"⟩, ⟨"aws.operation", "GetObject"⟩], 42⟩]⟩]⟩] 9
  exact ⟨h.2.1, h.1 ⟨42, "roleA", "s3:GetObject", 1⟩ (by decide)⟩
